import Mathlib

/-!
Verification of the MDTOPDFRAG file-aggregation and format-conversion pipeline
(`src/App.tsx`, the variant with CSV conversion, ZIP ingestion and JSON output).

The JavaScript string functions are modelled over `List Char` / `String`:
`String.prototype.trim` as `jsTrim`, `content.split(/\r?\n/)` as `splitLines`,
`Array.prototype.join` as `joinSep`, and the per-row CSV field regex
`(?:"((?:""|[^"])*)"|([^,]*))(,|$)` as `scanQuoted` / `parseCsvRow`.
-/

/-- Whitespace characters removed by the JavaScript `String.prototype.trim`
(ECMAScript WhiteSpace and LineTerminator code points). -/
def isJsWhitespace (c : Char) : Bool :=
  c = ' ' || c = '\t' || c = '\n' || c = '\r' ||
  c.toNat = 0xb || c.toNat = 0xc || c.toNat = 0xa0 || c.toNat = 0x1680 ||
  (0x2000 ≤ c.toNat && c.toNat ≤ 0x200a) ||
  c.toNat = 0x2028 || c.toNat = 0x2029 || c.toNat = 0x202f ||
  c.toNat = 0x205f || c.toNat = 0x3000 || c.toNat = 0xfeff

/-- List-level model of `s.trim()`: remove leading and trailing whitespace. -/
def jsTrimList (l : List Char) : List Char :=
  ((l.dropWhile isJsWhitespace).reverse.dropWhile isJsWhitespace).reverse

/-- Model of the JavaScript `s.trim()`. -/
def jsTrim (s : String) : String :=
  String.mk (jsTrimList s.data)

/-- Prepend a character to the first piece of a split result. -/
def consHead (c : Char) : List (List Char) → List (List Char)
  | [] => [[c]]
  | l :: ls => (c :: l) :: ls

/-- Model of `content.split(/\r?\n/)`: a separator is a bare LF or a CRLF pair
(a lone CR is not a separator, and a CR directly before an LF is consumed
together with it, matching the greedy `\r?` of the regex). -/
def splitLines : List Char → List (List Char)
  | [] => [[]]
  | [c] => if c = '\n' then [[], []] else [[c]]
  | c :: c2 :: r =>
    if c = '\n' then [] :: splitLines (c2 :: r)
    else if c = '\r' ∧ c2 = '\n' then [] :: splitLines r
    else consHead c (splitLines (c2 :: r))

/-- Model of JavaScript `Array.prototype.join(sep)`. -/
def joinSep (sep : String) : List String → String
  | [] => ""
  | [x] => x
  | x :: xs => x ++ sep ++ joinSep sep xs

/-- The character class `[^,]` of the unquoted alternative of the field regex. -/
def notComma (c : Char) : Bool := c ≠ ','

/-- Scanner for the quoted alternative `"((?:""|[^"])*)"(,|$)` of the CSV field
regex, applied to the characters after the opening quote.  The body group
`(?:""|[^"])*` is deterministic: a non-quote character extends the body by one
character, a pair of quotes extends it by the pair, and a quote not followed by
another quote closes the field.  The match is accepted exactly when the closing
quote is followed by a comma or the end of the row, as group 3 requires; every
backtracking alternative of the regex engine fails, so this scanner computes the
regex result.  Returns the matched body (still escaped) and the characters from
the delimiter on. -/
def scanQuoted : List Char → Option (List Char × List Char)
  | [] => none
  | [c] => if c = '"' then some ([], []) else none
  | c :: c2 :: r =>
    if c = '"' then
      if c2 = '"' then (scanQuoted r).map fun p => ('"' :: '"' :: p.1, p.2)
      else if c2 = ',' then some ([], c2 :: r) else none
    else (scanQuoted (c2 :: r)).map fun p => (c :: p.1, p.2)

/-- The quoted alternative of the field regex tried at a row position: it can
only fire when the position starts with a double quote. -/
def quotedAt : List Char → Option (List Char × List Char)
  | [] => none
  | c :: r => if c = '"' then scanQuoted r else none

/-- Model of `value.replace(/""/g, '"')`: left-to-right, non-overlapping. -/
def unescapeQuotes : List Char → List Char
  | [] => []
  | [c] => [c]
  | c :: c2 :: r =>
    if c = '"' ∧ c2 = '"' then '"' :: unescapeQuotes r
    else c :: unescapeQuotes (c2 :: r)

/-- Fuel-driven evaluator for the tokenizer loop
`while ((match = regex.exec(row))) { ... if (match[3] === '') break; }` of
`parseCsvRow`.  At each position the quoted alternative is tried first; when it
fails the unquoted alternative `([^,]*)(,|$)` always matches: the field is the
longest comma-free prefix.  Group 3 being empty (end of row) stops the loop
after the final push and every value is pushed trimmed.  The fuel only bounds
the recursion; `parseRowsAux_fuel` shows any fuel above the row length computes
the same list. -/
def parseRowsAux : Nat → List Char → List String
  | 0, _ => []
  | fuel + 1, row =>
    match quotedAt row with
    | some (body, rest) =>
      match rest with
      | [] => [jsTrim (String.mk (unescapeQuotes body))]
      | _ :: tail => jsTrim (String.mk (unescapeQuotes body)) :: parseRowsAux fuel tail
    | none =>
      match row.dropWhile notComma with
      | [] => [jsTrim (String.mk (row.takeWhile notComma))]
      | _ :: tail => jsTrim (String.mk (row.takeWhile notComma)) :: parseRowsAux fuel tail

/-- The CSV row tokenizer `parseCsvRow`, over character lists. -/
def parseCsvRowL (row : List Char) : List String := parseRowsAux (row.length + 1) row

/-- The CSV row tokenizer `parseCsvRow` of `csvToMarkdownTable`. -/
def parseCsvRow (row : String) : List String := parseCsvRowL row.data

/-- Model of `cell.replace(/\|/g, '\\|')`. -/
def escapePipes (s : String) : String :=
  String.join (s.data.map fun c => if c = '|' then "\x5c|" else String.singleton c)

/-- Model of `Array.from({ length: n }, (_, i) => cells[i] || '')`: index `i`
yields `cells[i]` when it exists and `''` otherwise (`cells[i] || ''` also maps
an existing empty-string cell to `''`, which coincides with `getD`). -/
def adjustCells (n : Nat) (cells : List String) : List String :=
  (List.range n).map fun i => cells.getD i ""

/-- One generated data row of the Markdown table: the tokenized cells adjusted
to the header length, pipe-escaped, joined by `' | '` and enclosed in pipes. -/
def mkTableRow (headerLen : Nat) (line : List Char) : String :=
  "| " ++ joinSep " | " ((adjustCells headerLen (parseCsvRowL line)).map escapePipes) ++ " |"

/-- `header = parseCsvRow(lines[0])` of `csvToMarkdownTable`. -/
def csvHeaderOf (content : List Char) : List String :=
  parseCsvRowL ((splitLines content).headD [])

/-- `lines.slice(1).filter(line => line.trim() !== '')` of `csvToMarkdownTable`. -/
def csvDataLinesOf (content : List Char) : List (List Char) :=
  ((splitLines content).drop 1).filter fun l => jsTrimList l ≠ []

/-- Model of `csvToMarkdownTable`. -/
def csvToMarkdownTable (csv : String) : String :=
  if jsTrim csv = "" then ""
  else if splitLines (jsTrim csv).data = [] then ""
  else
    "| " ++ joinSep " | " (csvHeaderOf (jsTrim csv).data) ++ " |\n| " ++
      joinSep " | " ((csvHeaderOf (jsTrim csv).data).map fun _ => "---") ++ " |\n" ++
      joinSep "\n"
        ((csvDataLinesOf (jsTrim csv).data).map
          (mkTableRow (csvHeaderOf (jsTrim csv).data).length))

/-- ASCII lowercasing of a string, character by character (the extension
patterns below are ASCII, so this matches the canonicalization of a `/i` regex
on them). -/
def lowerStr (s : String) : String := String.mk (s.data.map Char.toLower)

/-- Case-insensitive suffix test, modelling a `/...$/i` regex test with an
ASCII-lowercase pattern. -/
def endsWithCI (s pat : String) : Bool :=
  List.isSuffixOf pat.data (lowerStr s).data

/-- `/\.csv$/i.test(name)`. -/
def isCsvName (name : String) : Bool := endsWithCI name ".csv"

/-- `/\.zip$/i.test(name)`. -/
def isZipName (name : String) : Bool := endsWithCI name ".zip"

/-- `/\.(md|markdown|csv)$/i.test(name)`. -/
def isSupportedName (name : String) : Bool :=
  endsWithCI name ".md" || endsWithCI name ".markdown" || endsWithCI name ".csv"

/-- Remove the last `n` characters of a string. -/
def dropLast (s : String) (n : Nat) : String :=
  String.mk (s.data.take (s.data.length - n))

/-- Model of `name.replace(/\.(md|markdown|csv)$/i, '')`.  The three
alternatives end in distinct letters, so at most one of them is a suffix of the
name and the regex removes exactly that trailing extension. -/
def stripExt (name : String) : String :=
  if endsWithCI name ".md" then dropLast name 3
  else if endsWithCI name ".markdown" then dropLast name 9
  else if endsWithCI name ".csv" then dropLast name 4
  else name

/-- The character class `[\\`*_{}[\]()#+-.!]` of `sanitizeFilenameForHeader`.
Inside the class, `+-.` is a character range from `'+'` (0x2b) to `'.'` (0x2e),
so it also contains `','` (0x2c). -/
def mdSpecialChar (c : Char) : Bool :=
  c = '\x5c' || c = '\x60' || c = '*' || c = '_' || c = '\x7b' || c = '\x7d' ||
  c = '[' || c = ']' || c = '(' || c = ')' || c = '#' ||
  ('+' ≤ c && c ≤ '.') || c = '!'

/-- Model of `sanitizeFilenameForHeader`: strip the trailing extension, then
replace every special character `$1` by `\$1`. -/
def sanitizeFilenameForHeader (name : String) : String :=
  String.join ((stripExt name).data.map fun c =>
    if mdSpecialChar c then "\x5c" ++ String.singleton c else String.singleton c)

/-- The per-file heading `# ${sanitizeFilenameForHeader(file.name)}`. -/
def headingFor (name : String) : String := "# " ++ sanitizeFilenameForHeader name

/-- The in-memory record of an uploaded (already converted) file. -/
structure UploadedFile where
  id : String
  name : String
  content : String
deriving DecidableEq, Repr

/-- One section of the combined document:
`# ${sanitizeFilenameForHeader(file.name)}\n\n${file.content}`. -/
def sectionFor (f : UploadedFile) : String := headingFor f.name ++ "\n\n" ++ f.content

/-- Model of the `combinedMarkdown` memo. -/
def combinedMarkdown (isJoining : Bool) (files : List UploadedFile) : String :=
  if !isJoining || files.length == 0 then ""
  else joinSep "\n\n---\n\n" (files.map sectionFor)

def MAX_FILES : Nat := 100

def MAX_FILE_SIZE_MB : Nat := 5

def MAX_FILE_SIZE_BYTES : Nat := MAX_FILE_SIZE_MB * 1024 * 1024

def MAX_ZIP_FILE_SIZE_MB : Nat := 25

def MAX_ZIP_FILE_SIZE_BYTES : Nat := MAX_ZIP_FILE_SIZE_MB * 1024 * 1024

/-- Model of `processSingleFile`.  The id `${fileName}-${Date.now()}-${Math.random()}`
is nondeterministic in the code; it is abstracted by the generator `genId`. -/
def processSingleFile (genId : String → String) (fileName content : String) : UploadedFile :=
  { id := genId fileName
    name := fileName
    content := if isCsvName fileName then csvToMarkdownTable content else content }

/-- A member of a loaded ZIP archive. -/
structure ZipEntry where
  name : String
  dir : Bool
  content : String
deriving DecidableEq, Repr

/-- A file handed to `processFiles`, with the environment facts `handleFile`
observes: the byte size, whether `FileReader.readAsText` succeeds (and the text
it yields), and the member list `JSZip.loadAsync` yields (`none` models a
corrupt archive whose load throws). -/
structure DroppedFile where
  name : String
  size : Nat
  readOk : Bool
  text : String
  zipEntries : Option (List ZipEntry)
deriving DecidableEq, Repr

/-- Model of `handleFile` (assuming the JSZip library is loaded). -/
def handleFile (genId : String → String) (f : DroppedFile) : Except String (List UploadedFile) :=
  if isZipName f.name then
    if f.size > MAX_ZIP_FILE_SIZE_BYTES then
      .error ("ZIP \"" ++ f.name ++ "\" is larger than 25MB.")
    else
      match f.zipEntries with
      | some entries =>
        .ok ((entries.filter fun e => !e.dir && isSupportedName e.name).map
          fun e => processSingleFile genId e.name e.content)
      | none => .error ("Failed to process ZIP file \"" ++ f.name ++ "\". It may be corrupt.")
  else if isSupportedName f.name then
    if f.size > MAX_FILE_SIZE_BYTES then
      .error ("\"" ++ f.name ++ "\" is larger than 5MB.")
    else if f.readOk then .ok [processSingleFile genId f.name f.text]
    else .error ("Failed to read \"" ++ f.name ++ "\".")
  else .ok []

/-- `Promise.all(droppedFiles.map(handleFile))` followed by `.flat()`: the
first rejection rejects the whole batch, otherwise all per-file results are
concatenated in order. -/
def collectNewFiles (genId : String → String) : List DroppedFile → Except String (List UploadedFile)
  | [] => .ok []
  | f :: fs =>
    match handleFile genId f with
    | .error e => .error e
    | .ok us =>
      match collectNewFiles genId fs with
      | .error e => .error e
      | .ok rest => .ok (us ++ rest)

/-- Model of `processFiles`: the resulting file list and the error banner
(`none` when no error is set). -/
def processFiles (genId : String → String) (files : List UploadedFile)
    (dropped : List DroppedFile) : List UploadedFile × Option String :=
  if files.length ≥ MAX_FILES then
    (files, some "You have reached the maximum of 100 files.")
  else
    match collectNewFiles genId dropped with
    | .error e => (files, some e)
    | .ok newFiles =>
      if files.length + newFiles.length > MAX_FILES then
        (files ++ newFiles.take (MAX_FILES - files.length),
          some "Adding these files would exceed the limit of 100. Only a portion were added.")
      else (files ++ newFiles, none)

/-- Model of `removeFile`: `files.filter(file => file.id !== fileId)`. -/
def removeFile (files : List UploadedFile) (fileId : String) : List UploadedFile :=
  files.filter fun f => f.id ≠ fileId

/-- Model of the Clear All button: `setFiles([])`. -/
def clearFiles : List UploadedFile := []

/-- Lowercase hexadecimal digit, for JSON control-character escapes. -/
def hexDigit (n : Nat) : Char :=
  if n < 10 then Char.ofNat (48 + n) else Char.ofNat (87 + n)

/-- One character of an ECMAScript `JSON.stringify` string serialization. -/
def jsonEscapeChar (c : Char) : String :=
  if c = '"' then "\x5c\""
  else if c = '\x5c' then "\x5c\x5c"
  else if c.toNat = 8 then "\x5cb"
  else if c.toNat = 12 then "\x5cf"
  else if c = '\n' then "\x5cn"
  else if c = '\r' then "\x5cr"
  else if c = '\t' then "\x5ct"
  else if c.toNat < 32 then "\x5cu00" ++ String.mk [hexDigit (c.toNat / 16), hexDigit (c.toNat % 16)]
  else String.singleton c

/-- `JSON.stringify` of a string value. -/
def jsonQuote (s : String) : String :=
  "\"" ++ String.join (s.data.map jsonEscapeChar) ++ "\""

/-- `JSON.stringify({ name, content }, null, 2)` at nesting indent `ind`. -/
def jsonNameContent (ind : String) (name content : String) : String :=
  "\x7b\n" ++ ind ++ "  \"name\": " ++ jsonQuote name ++ ",\n" ++
    ind ++ "  \"content\": " ++ jsonQuote content ++ "\n" ++ ind ++ "\x7d"

/-- `JSON.stringify(pairs-as-objects, null, 2)` for an array of
`{name, content}` objects. -/
def jsonStringifyPairs (pairs : List (String × String)) : String :=
  if pairs = [] then "[]"
  else "[\n  " ++ joinSep ",\n  " (pairs.map fun p => jsonNameContent "  " p.1 p.2) ++ "\n]"

/-- The combined JSON artifact of `handleDownload`:
`JSON.stringify(files.map(({ name, content }) => ({ name, content })), null, 2)`. -/
def downloadJsonCombined (files : List UploadedFile) : String :=
  jsonStringifyPairs (files.map fun f => (f.name, f.content))

/-- The ZIP entries produced by the non-combined JSON branch of
`handleDownload`: for each file, entry `${title}.json` holding
`JSON.stringify({ name, content }, null, 2)`. -/
def downloadJsonSeparate (files : List UploadedFile) : List (String × String) :=
  files.map fun f => (stripExt f.name ++ ".json", jsonNameContent "" f.name f.content)

/-- The header row of the generated Markdown table. -/
def headerRowOf (csv : String) : String :=
  "| " ++ joinSep " | " (csvHeaderOf (jsTrim csv).data) ++ " |"

/-- The separator row of the generated Markdown table. -/
def separatorRowOf (csv : String) : String :=
  "| " ++ joinSep " | " ((csvHeaderOf (jsTrim csv).data).map fun _ => "---") ++ " |"

/-- The generated data rows of the Markdown table, one per non-blank line after
the first, in line order. -/
def tableRowsOf (csv : String) : List String :=
  (csvDataLinesOf (jsTrim csv).data).map
    (mkTableRow (csvHeaderOf (jsTrim csv).data).length)

/-- Modelled from the claim C1 wording: the table consists of exactly the
header row, the separator row and the data rows, joined by single newlines. -/
def mdTableClaim (csv : String) : String :=
  if jsTrim csv = "" then ""
  else joinSep "\n" ([headerRowOf csv, separatorRowOf csv] ++ tableRowsOf csv)

/-- RFC 4180 quoting of a field body: every double quote is doubled. -/
def rfcEscape : List Char → List Char
  | [] => []
  | c :: r => if c = '"' then '"' :: '"' :: rfcEscape r else c :: rfcEscape r

/-- Modelled from the claim C3 wording: the per-file sections in order, with a
horizontal rule between consecutive sections. -/
def joinedSectionsSpec : List UploadedFile → String
  | [] => ""
  | [f] => sectionFor f
  | f :: fs => sectionFor f ++ "\n\n---\n\n" ++ joinedSectionsSpec fs

/-- The escape set listed by claim C4:
backslash, backtick, `*`, `_`, braces, brackets, parentheses, `#`, `+`, `-`,
`.`, `!` - without the comma. -/
def claimSpecialChars : List Char :=
  ['\x5c', '\x60', '*', '_', '\x7b', '\x7d', '[', ']', '(', ')', '#', '+', '-', '.', '!']

/-- Modelled from the claim C4 wording: escape exactly `claimSpecialChars`. -/
def claimSanitize (name : String) : String :=
  String.join ((stripExt name).data.map fun c =>
    if c ∈ claimSpecialChars then "\x5c" ++ String.singleton c else String.singleton c)

/-- Modelled from the claim C4 wording: the heading it predicts. -/
def claimHeading (name : String) : String := "# " ++ claimSanitize name

/-- The escape set the code actually uses: the claim set plus the comma,
which the character range `+-.` of the regex also covers. -/
def amendedSpecialChars : List Char :=
  ['\x5c', '\x60', '*', '_', '\x7b', '\x7d', '[', ']', '(', ')', '#', '+', ',', '-', '.', '!']

/-- Modelled from the claim C7 wording: the 2-space-indented JSON array items,
one `{name, content}` object per pair, joined by `,\n`. -/
def jsonItemsSpec : List (String × String) → String
  | [] => ""
  | [p] => "  " ++ jsonNameContent "  " p.1 p.2
  | p :: ps => "  " ++ jsonNameContent "  " p.1 p.2 ++ ",\n" ++ jsonItemsSpec ps

/-- Modelled from the claim C7 wording: the JSON serialization of a list of
`{name, content}` pairs. -/
def jsonArraySpec (pairs : List (String × String)) : String :=
  match pairs with
  | [] => "[]"
  | _ :: _ => "[\n" ++ jsonItemsSpec pairs ++ "\n]"

example : parseCsvRow "a, b ,\"c,d\",\"e\"\"f\" , \"x\"y," =
    ["a", "b", "c,d", "\"e\"\"f\"", "\"x\"y", ""] := by decide

example : parseCsvRow "" = [""] := by decide

example : parseCsvRow "\"a,b" = ["\"a", "b"] := by decide

example : csvToMarkdownTable "h1,h2\na,b\n\nc" =
    "| h1 | h2 |\n| --- | --- |\n| a | b |\n| c |  |" := by decide

example : csvToMarkdownTable "  \n " = "" := by decide

example : sanitizeFilenameForHeader "a,b.md" = "a\x5c,b" := by decide

example : combinedMarkdown true [⟨"i", "x.md", "C"⟩] = "# x\n\nC" := by decide

theorem scanQuoted_nil : scanQuoted [] = none := rfl

theorem scanQuoted_single (c : Char) :
    scanQuoted [c] = if c = '"' then some ([], []) else none := rfl

theorem scanQuoted_cons2 (c c2 : Char) (r : List Char) :
    scanQuoted (c :: c2 :: r) =
      if c = '"' then
        if c2 = '"' then (scanQuoted r).map fun p => ('"' :: '"' :: p.1, p.2)
        else if c2 = ',' then some ([], c2 :: r) else none
      else (scanQuoted (c2 :: r)).map fun p => (c :: p.1, p.2) := rfl

theorem quotedAt_cons (c : Char) (r : List Char) :
    quotedAt (c :: r) = if c = '"' then scanQuoted r else none := rfl

theorem unescapeQuotes_cons2 (c c2 : Char) (r : List Char) :
    unescapeQuotes (c :: c2 :: r) =
      if c = '"' ∧ c2 = '"' then '"' :: unescapeQuotes r
      else c :: unescapeQuotes (c2 :: r) := rfl

theorem splitLines_single (c : Char) :
    splitLines [c] = if c = '\n' then [[], []] else [[c]] := rfl

theorem splitLines_cons2 (c c2 : Char) (r : List Char) :
    splitLines (c :: c2 :: r) =
      if c = '\n' then [] :: splitLines (c2 :: r)
      else if c = '\r' ∧ c2 = '\n' then [] :: splitLines r
      else consHead c (splitLines (c2 :: r)) := rfl

theorem consHead_ne_nil (c : Char) (ls : List (List Char)) : consHead c ls ≠ [] := by
  cases ls <;> simp [consHead]

theorem splitLines_ne_nil : ∀ l : List Char, splitLines l ≠ [] := by
  intro l
  match l with
  | [] => simp [splitLines]
  | [c] => rw [splitLines_single]; split <;> simp
  | c :: c2 :: r =>
    rw [splitLines_cons2]
    split
    · simp
    · split
      · simp
      · apply consHead_ne_nil

theorem joinSep_cons (sep x : String) (xs : List String) (h : xs ≠ []) :
    joinSep sep (x :: xs) = x ++ sep ++ joinSep sep xs := by
  cases xs with
  | nil => exact absurd rfl h
  | cons y ys => rfl

theorem scanQuoted_length : ∀ (r body rest : List Char),
    scanQuoted r = some (body, rest) → r.length = body.length + 1 + rest.length := by
  intro r
  induction r using scanQuoted.induct with
  | case1 =>
    intro body rest h
    simp [scanQuoted] at h
  | case2 =>
    intro body rest h
    rw [scanQuoted_single, if_pos rfl] at h
    simp only [Option.some.injEq, Prod.mk.injEq] at h
    obtain ⟨h1, h2⟩ := h
    subst h1; subst h2; rfl
  | case3 c hc =>
    intro body rest h
    rw [scanQuoted_single, if_neg hc] at h
    exact absurd h (by simp)
  | case4 r ih =>
    intro body rest h
    rw [scanQuoted_cons2, if_pos rfl, if_pos rfl, Option.map_eq_some'] at h
    obtain ⟨⟨b2, r3⟩, hb, hx⟩ := h
    obtain ⟨hx1, hx2⟩ := Prod.mk.injEq .. ▸ hx
    subst hx1; subst hx2
    have := ih b2 r3 hb
    simp only [List.length_cons]
    omega
  | case5 r h5 =>
    intro body rest h
    rw [scanQuoted_cons2, if_pos rfl, if_neg h5, if_pos rfl] at h
    simp only [Option.some.injEq, Prod.mk.injEq] at h
    obtain ⟨h1, h2⟩ := h
    subst h1; subst h2
    simp only [List.length_cons, List.length_nil]
    omega
  | case6 c2 r h6 h7 =>
    intro body rest h
    rw [scanQuoted_cons2, if_pos rfl, if_neg h6, if_neg h7] at h
    exact absurd h (by simp)
  | case7 c c2 r hc ih =>
    intro body rest h
    rw [scanQuoted_cons2, if_neg hc, Option.map_eq_some'] at h
    obtain ⟨⟨b2, r3⟩, hb, hx⟩ := h
    obtain ⟨hx1, hx2⟩ := Prod.mk.injEq .. ▸ hx
    subst hx1; subst hx2
    have := ih b2 r3 hb
    simp only [List.length_cons] at this ⊢
    omega

theorem quotedAt_length : ∀ (row body rest : List Char),
    quotedAt row = some (body, rest) → row.length = body.length + 2 + rest.length := by
  intro row body rest h
  match row with
  | [] => simp [quotedAt] at h
  | c :: r =>
    rw [quotedAt_cons] at h
    by_cases hc : c = '"'
    · rw [if_pos hc] at h
      have := scanQuoted_length r body rest h
      simp only [List.length_cons]
      omega
    · rw [if_neg hc] at h; exact absurd h (by simp)

theorem length_dropWhile_add (p : Char → Bool) (l : List Char) :
    (l.takeWhile p).length + (l.dropWhile p).length = l.length := by
  rw [← List.length_append, List.takeWhile_append_dropWhile]

theorem parseRowsAux_fuel : ∀ (fuel : Nat) (row : List Char), row.length < fuel →
    parseRowsAux fuel row = parseCsvRowL row := by
  intro fuel
  induction fuel using Nat.strong_induction_on with
  | _ fuel ih =>
    intro row hrow
    match fuel with
    | 0 => omega
    | n + 1 =>
      show parseRowsAux (n+1) row = parseRowsAux (row.length + 1) row
      simp only [parseRowsAux]
      cases hq : quotedAt row with
      | some p =>
        obtain ⟨body, rest⟩ := p
        have hlen := quotedAt_length row body rest hq
        cases rest with
        | nil => rfl
        | cons c tail =>
          simp only [List.length_cons] at hlen
          have h1 : parseRowsAux n tail = parseCsvRowL tail :=
            ih n (by omega) tail (by omega)
          have h2 : parseRowsAux row.length tail = parseCsvRowL tail :=
            ih row.length (by omega) tail (by omega)
          dsimp only
          rw [h1, h2]
      | none =>
        cases hd : row.dropWhile notComma with
        | nil => rfl
        | cons c tail =>
          have hlen := length_dropWhile_add notComma row
          rw [hd] at hlen
          simp only [List.length_cons] at hlen
          have h1 : parseRowsAux n tail = parseCsvRowL tail :=
            ih n (by omega) tail (by omega)
          have h2 : parseRowsAux row.length tail = parseCsvRowL tail :=
            ih row.length (by omega) tail (by omega)
          dsimp only
          rw [h1, h2]

/-- The defining equation of the tokenizer loop, free of fuel. -/
theorem parseCsvRowL_eq (row : List Char) :
    parseCsvRowL row =
      match quotedAt row with
      | some (body, rest) =>
        match rest with
        | [] => [jsTrim (String.mk (unescapeQuotes body))]
        | _ :: tail => jsTrim (String.mk (unescapeQuotes body)) :: parseCsvRowL tail
      | none =>
        match row.dropWhile notComma with
        | [] => [jsTrim (String.mk (row.takeWhile notComma))]
        | _ :: tail => jsTrim (String.mk (row.takeWhile notComma)) :: parseCsvRowL tail := by
  show parseRowsAux (row.length + 1) row = _
  simp only [parseRowsAux]
  cases hq : quotedAt row with
  | some p =>
    obtain ⟨body, rest⟩ := p
    have hlen := quotedAt_length row body rest hq
    cases rest with
    | nil => rfl
    | cons c tail =>
      simp only [List.length_cons] at hlen
      dsimp only
      rw [parseRowsAux_fuel row.length tail (by omega)]
  | none =>
    cases hd : row.dropWhile notComma with
    | nil => rfl
    | cons c tail =>
      have hlen := length_dropWhile_add notComma row
      rw [hd] at hlen
      simp only [List.length_cons] at hlen
      dsimp only
      rw [parseRowsAux_fuel row.length tail (by omega)]

theorem dropWhile_self (p : Char → Bool) : ∀ l : List Char,
    (l.dropWhile p).dropWhile p = l.dropWhile p := by
  intro l
  induction l with
  | nil => rfl
  | cons a l ih =>
    rw [List.dropWhile_cons]
    by_cases h : p a
    · rw [if_pos h]; exact ih
    · rw [if_neg h, List.dropWhile_cons, if_neg h]

theorem dropWhile_exists_prefix (p : Char → Bool) : ∀ l : List Char,
    ∃ t, t ++ l.dropWhile p = l := by
  intro l
  induction l with
  | nil => exact ⟨[], rfl⟩
  | cons a l ih =>
    by_cases h : p a
    · obtain ⟨t, ht⟩ := ih
      exact ⟨a :: t, by rw [List.dropWhile_cons, if_pos h, List.cons_append, ht]⟩
    · exact ⟨[], by rw [List.dropWhile_cons, if_neg h]; rfl⟩

theorem length_dropWhile_le (p : Char → Bool) (l : List Char) :
    (l.dropWhile p).length ≤ l.length := by
  have := length_dropWhile_add p l
  omega

theorem jsTrimList_idem (l : List Char) : jsTrimList (jsTrimList l) = jsTrimList l := by
  have hA : (l.dropWhile isJsWhitespace).dropWhile isJsWhitespace
      = l.dropWhile isJsWhitespace := dropWhile_self ..
  obtain ⟨t, ht⟩ :=
    dropWhile_exists_prefix isJsWhitespace (l.dropWhile isJsWhitespace).reverse
  cases hB : ((l.dropWhile isJsWhitespace).reverse.dropWhile isJsWhitespace).reverse with
  | nil =>
    show jsTrimList (jsTrimList l) = jsTrimList l
    unfold jsTrimList
    rw [hB]
    rfl
  | cons b B' =>
    have hbA : l.dropWhile isJsWhitespace = b :: (B' ++ t.reverse) := by
      conv_lhs => rw [← List.reverse_reverse (l.dropWhile isJsWhitespace), ← ht]
      rw [List.reverse_append, hB]
      simp
    have hpb : isJsWhitespace b = false := by
      by_cases hw : isJsWhitespace b
      · exfalso
        rw [hbA, List.dropWhile_cons, if_pos hw] at hA
        have h1 : ((B' ++ t.reverse).dropWhile isJsWhitespace).length
            ≤ (B' ++ t.reverse).length := length_dropWhile_le ..
        have h2 : ((B' ++ t.reverse).dropWhile isJsWhitespace).length
            = (b :: (B' ++ t.reverse)).length := by rw [hA]
        simp only [List.length_cons] at h2
        omega
      · simpa using hw
    show jsTrimList (jsTrimList l) = jsTrimList l
    unfold jsTrimList
    rw [hB]
    have hBd : (b :: B').dropWhile isJsWhitespace = b :: B' := by
      rw [List.dropWhile_cons, if_neg (by simp [hpb])]
    rw [hBd]
    have hRev : (b :: B').reverse
        = (l.dropWhile isJsWhitespace).reverse.dropWhile isJsWhitespace := by
      rw [← hB, List.reverse_reverse]
    rw [hRev, dropWhile_self]
    exact hB

theorem jsTrim_idem (s : String) : jsTrim (jsTrim s) = jsTrim s :=
  congrArg String.mk (jsTrimList_idem s.data)

theorem scanQuoted_cons_ne (c : Char) (r : List Char) (h : ¬c = '"') :
    scanQuoted (c :: r) = (scanQuoted r).map fun p => (c :: p.1, p.2) := by
  cases r with
  | nil => rw [scanQuoted_single, if_neg h]; rfl
  | cons c2 r2 => rw [scanQuoted_cons2, if_neg h]

theorem unescape_cons_ne (c : Char) (r : List Char) (h : ¬c = '"') :
    unescapeQuotes (c :: r) = c :: unescapeQuotes r := by
  cases r with
  | nil => rfl
  | cons c2 r2 => rw [unescapeQuotes_cons2, if_neg fun hand => h hand.1]

theorem scanQuoted_rfcEscape : ∀ (t rest : List Char),
    rest = [] ∨ rest.head? = some ',' →
    scanQuoted (rfcEscape t ++ '"' :: rest) = some (rfcEscape t, rest) := by
  intro t
  induction t with
  | nil =>
    intro rest h
    cases h with
    | inl h =>
      subst h
      rw [show rfcEscape [] ++ ['"'] = ['"'] from rfl, scanQuoted_single, if_pos rfl]
      rfl
    | inr h =>
      cases rest with
      | nil => simp at h
      | cons c2 r2 =>
        have hc2 : c2 = ',' := by simpa using h
        subst hc2
        rw [show rfcEscape [] ++ '"' :: ',' :: r2 = '"' :: ',' :: r2 from rfl,
          scanQuoted_cons2, if_pos rfl, if_neg (by decide), if_pos rfl]
        rfl
  | cons c t ih =>
    intro rest h
    by_cases hc : c = '"'
    · subst hc
      rw [show rfcEscape ('"' :: t) = '"' :: '"' :: rfcEscape t from by
          simp [rfcEscape]]
      rw [show ('"' :: '"' :: rfcEscape t) ++ '"' :: rest
          = '"' :: '"' :: (rfcEscape t ++ '"' :: rest) from rfl]
      rw [scanQuoted_cons2, if_pos rfl, if_pos rfl, ih rest h]
      rfl
    · rw [show rfcEscape (c :: t) = c :: rfcEscape t from by simp [rfcEscape, hc]]
      rw [show (c :: rfcEscape t) ++ '"' :: rest = c :: (rfcEscape t ++ '"' :: rest) from rfl]
      rw [scanQuoted_cons_ne c _ hc, ih rest h]
      rfl

theorem unescape_rfcEscape : ∀ t : List Char, unescapeQuotes (rfcEscape t) = t := by
  intro t
  induction t with
  | nil => rfl
  | cons c t ih =>
    by_cases hc : c = '"'
    · subst hc
      rw [show rfcEscape ('"' :: t) = '"' :: '"' :: rfcEscape t from by simp [rfcEscape]]
      rw [unescapeQuotes_cons2, if_pos ⟨rfl, rfl⟩, ih]
    · rw [show rfcEscape (c :: t) = c :: rfcEscape t from by simp [rfcEscape, hc]]
      rw [unescape_cons_ne c _ hc, ih]

theorem takeWhile_notComma_append : ∀ (u rest : List Char), ',' ∉ u →
    (u ++ ',' :: rest).takeWhile notComma = u := by
  intro u rest h
  induction u with
  | nil =>
    rw [List.nil_append, List.takeWhile_cons]
    norm_num [notComma]
  | cons c u ih =>
    have hc : ¬c = ',' := fun hx => h (by simp [hx])
    rw [List.cons_append, List.takeWhile_cons, if_pos (by simp [notComma, hc])]
    rw [ih fun hx => h (List.mem_cons_of_mem c hx)]

theorem dropWhile_notComma_append : ∀ (u rest : List Char), ',' ∉ u →
    (u ++ ',' :: rest).dropWhile notComma = ',' :: rest := by
  intro u rest h
  induction u with
  | nil =>
    rw [List.nil_append, List.dropWhile_cons]
    norm_num [notComma]
  | cons c u ih =>
    have hc : ¬c = ',' := fun hx => h (by simp [hx])
    rw [List.cons_append, List.dropWhile_cons, if_pos (by simp [notComma, hc])]
    exact ih fun hx => h (List.mem_cons_of_mem c hx)

theorem takeWhile_notComma_all : ∀ u : List Char, ',' ∉ u →
    u.takeWhile notComma = u := by
  intro u h
  induction u with
  | nil => rfl
  | cons c u ih =>
    have hc : ¬c = ',' := fun hx => h (by simp [hx])
    rw [List.takeWhile_cons, if_pos (by simp [notComma, hc])]
    rw [ih fun hx => h (List.mem_cons_of_mem c hx)]

theorem dropWhile_notComma_all : ∀ u : List Char, ',' ∉ u →
    u.dropWhile notComma = [] := by
  intro u h
  induction u with
  | nil => rfl
  | cons c u ih =>
    have hc : ¬c = ',' := fun hx => h (by simp [hx])
    rw [List.dropWhile_cons, if_pos (by simp [notComma, hc])]
    exact ih fun hx => h (List.mem_cons_of_mem c hx)

theorem quotedAt_none_of_head : ∀ row : List Char, row.head? ≠ some '"' →
    quotedAt row = none := by
  intro row h
  cases row with
  | nil => rfl
  | cons c r =>
    rw [quotedAt_cons, if_neg]
    intro hc
    exact h (by simp [hc])

/-- A quoted field followed by a comma: one field, commas allowed inside,
doubled quotes unescaped, value trimmed. -/
theorem parseCsvRowL_quoted_comma (t rest : List Char) :
    parseCsvRowL ('"' :: (rfcEscape t ++ '"' :: ',' :: rest)) =
      jsTrim (String.mk t) :: parseCsvRowL rest := by
  rw [parseCsvRowL_eq]
  have hq : quotedAt ('"' :: (rfcEscape t ++ '"' :: ',' :: rest))
      = some (rfcEscape t, ',' :: rest) := by
    rw [quotedAt_cons, if_pos rfl]
    exact scanQuoted_rfcEscape t (',' :: rest) (Or.inr rfl)
  rw [hq]
  dsimp only
  rw [unescape_rfcEscape]

/-- A quoted field at the end of the row. -/
theorem parseCsvRowL_quoted_end (t : List Char) :
    parseCsvRowL ('"' :: (rfcEscape t ++ ['"'])) = [jsTrim (String.mk t)] := by
  rw [parseCsvRowL_eq]
  have hq : quotedAt ('"' :: (rfcEscape t ++ ['"'])) = some (rfcEscape t, []) := by
    rw [quotedAt_cons, if_pos rfl]
    exact scanQuoted_rfcEscape t [] (Or.inl rfl)
  rw [hq]
  dsimp only
  rw [unescape_rfcEscape]

/-- An unquoted field extends to the next comma; its value is trimmed. -/
theorem parseCsvRowL_unquoted_comma (u rest : List Char) (h1 : ',' ∉ u)
    (h2 : u.head? ≠ some '"') :
    parseCsvRowL (u ++ ',' :: rest) = jsTrim (String.mk u) :: parseCsvRowL rest := by
  rw [parseCsvRowL_eq]
  have hq : quotedAt (u ++ ',' :: rest) = none := by
    apply quotedAt_none_of_head
    cases u with
    | nil => simp
    | cons c u' => simpa using h2
  rw [hq, dropWhile_notComma_append u rest h1]
  dsimp only
  rw [takeWhile_notComma_append u rest h1]

/-- An unquoted field extends to the end of the row; its value is trimmed. -/
theorem parseCsvRowL_unquoted_end (u : List Char) (h1 : ',' ∉ u)
    (h2 : u.head? ≠ some '"') :
    parseCsvRowL u = [jsTrim (String.mk u)] := by
  rw [parseCsvRowL_eq]
  have hq : quotedAt u = none := by
    apply quotedAt_none_of_head
    cases u with
    | nil => simp
    | cons c u' => simpa using h2
  rw [hq, dropWhile_notComma_all u h1]
  dsimp only
  rw [takeWhile_notComma_all u h1]

theorem parseCsvRowL_trimmed_aux : ∀ (n : Nat) (row : List Char), row.length ≤ n →
    ∀ v ∈ parseCsvRowL row, jsTrim v = v := by
  intro n
  induction n with
  | zero =>
    intro row hlen v hv
    have hrow : row = [] := List.length_eq_zero.mp (Nat.le_zero.mp hlen)
    subst hrow
    rw [parseCsvRowL_eq] at hv
    simp only [quotedAt, List.dropWhile_nil, List.takeWhile_nil] at hv
    have : v = jsTrim (String.mk []) := by simpa using hv
    rw [this, jsTrim_idem]
  | succ n ih =>
    intro row hlen v hv
    rw [parseCsvRowL_eq] at hv
    cases hq : quotedAt row with
    | some p =>
      obtain ⟨body, rest⟩ := p
      rw [hq] at hv
      have hb := quotedAt_length row body rest hq
      cases rest with
      | nil =>
        dsimp only at hv
        have : v = jsTrim (String.mk (unescapeQuotes body)) := by simpa using hv
        rw [this, jsTrim_idem]
      | cons c tail =>
        dsimp only at hv
        rcases List.mem_cons.mp hv with hv | hv
        · rw [hv, jsTrim_idem]
        · exact ih tail (by simp at hb; omega) v hv
    | none =>
      rw [hq] at hv
      cases hd : row.dropWhile notComma with
      | nil =>
        rw [hd] at hv
        dsimp only at hv
        have : v = jsTrim (String.mk (row.takeWhile notComma)) := by simpa using hv
        rw [this, jsTrim_idem]
      | cons c tail =>
        rw [hd] at hv
        dsimp only at hv
        have hb := length_dropWhile_add notComma row
        rw [hd] at hb
        rcases List.mem_cons.mp hv with hv | hv
        · rw [hv, jsTrim_idem]
        · exact ih tail (by simp at hb; omega) v hv

/-- Every value the tokenizer emits is already whitespace-trimmed. -/
theorem parseCsvRowL_trimmed (row : List Char) : ∀ v ∈ parseCsvRowL row, jsTrim v = v :=
  parseCsvRowL_trimmed_aux row.length row le_rfl

/-- `Array.from({length: n}, (_, i) => cells[i] || '')` right-pads a short cell
list with empty cells and truncates a long one. -/
theorem adjustCells_eq : ∀ (n : Nat) (cells : List String),
    adjustCells n cells = cells.take n ++ List.replicate (n - cells.length) "" := by
  intro n
  induction n with
  | zero => intro cells; simp [adjustCells]
  | succ n ih =>
    intro cells
    cases cells with
    | nil =>
      have hD : ∀ i : Nat, ([] : List String).getD i "" = "" := by
        intro i; simp [List.getD]
      unfold adjustCells
      simp only [hD]
      rw [List.map_const', List.length_range]
      simp
    | cons c cs =>
      unfold adjustCells
      rw [List.range_succ_eq_map, List.map_cons, List.map_map]
      have hcomp : ((fun i => (c :: cs).getD i "") ∘ (· + 1)) = fun i => cs.getD i "" := by
        funext i
        simp [Function.comp, List.getD_cons_succ]
      rw [hcomp]
      have := ih cs
      unfold adjustCells at this
      rw [this]
      simp [List.getD_cons_zero, Nat.succ_sub_succ]

theorem adjustCells_length (n : Nat) (cells : List String) :
    (adjustCells n cells).length = n := by
  simp [adjustCells]

theorem string_data_append (a b : String) : (a ++ b).data = a.data ++ b.data :=
  String.data_append a b

theorem stringJoin_data : ∀ ss : List String,
    (String.join ss).data = (ss.map String.data).flatten := by
  have aux : ∀ (ss : List String) (acc : String),
      (List.foldl (fun r s => r ++ s) acc ss).data = acc.data ++ (ss.map String.data).flatten := by
    intro ss
    induction ss with
    | nil => intro acc; simp
    | cons s ss ih =>
      intro acc
      rw [List.foldl_cons, ih (acc ++ s)]
      simp [string_data_append, List.append_assoc]
  intro ss
  show (List.foldl (fun r s => r ++ s) "" ss).data = _
  rw [aux ss ""]
  rfl

/-- `escapePipes` rewrites each `'|'` to a backslash-pipe pair and leaves every
other character unchanged. -/
theorem escapePipes_data (s : String) :
    (escapePipes s).data =
      s.data.flatMap fun c => if c = '|' then ['\x5c', '|'] else [c] := by
  unfold escapePipes
  rw [stringJoin_data, List.map_map, List.flatMap]
  congr 1
  apply List.map_congr_left
  intro c _
  by_cases h : c = '|'
  · simp [h, Function.comp]
  · simp [h, Function.comp, String.singleton]

theorem charRange_plus_dot (c : Char) :
    (('+' ≤ c ∧ c ≤ '.') ↔ (c = '+' ∨ c = ',' ∨ c = '-' ∨ c = '.')) := by
  constructor
  · rintro ⟨h, h2⟩
    have h1 : ('+' : Char).toNat ≤ c.toNat := h
    have h3 : c.toNat ≤ ('.' : Char).toNat := h2
    have hv : c.toNat = 43 ∨ c.toNat = 44 ∨ c.toNat = 45 ∨ c.toNat = 46 := by
      simp only [show ('+' : Char).toNat = 43 from rfl] at h1
      simp only [show ('.' : Char).toNat = 46 from rfl] at h3
      omega
    have cv : ∀ d : Char, c.toNat = d.toNat → c = d := by
      intro d hd
      exact Char.ext (UInt32.ext (by simpa using hd))
    rcases hv with hv | hv | hv | hv
    · exact Or.inl (cv '+' hv)
    · exact Or.inr (Or.inl (cv ',' hv))
    · exact Or.inr (Or.inr (Or.inl (cv '-' hv)))
    · exact Or.inr (Or.inr (Or.inr (cv '.' hv)))
  · rintro (rfl | rfl | rfl | rfl) <;> exact ⟨by decide, by decide⟩

/-- The regex character class escapes exactly the 16 characters of
`amendedSpecialChars` (the 15 characters of the claim plus the comma). -/
theorem mdSpecialChar_iff (c : Char) :
    mdSpecialChar c = true ↔ c ∈ amendedSpecialChars := by
  unfold mdSpecialChar amendedSpecialChars
  simp only [Bool.or_eq_true, decide_eq_true_eq, Bool.and_eq_true, List.mem_cons,
    List.not_mem_nil, or_false]
  rw [charRange_plus_dot c]
  tauto

theorem joinSep_map_sections : ∀ files : List UploadedFile,
    joinSep "\n\n---\n\n" (files.map sectionFor) = joinedSectionsSpec files := by
  intro files
  induction files with
  | nil => rfl
  | cons f fs ih =>
    cases fs with
    | nil => rfl
    | cons g gs =>
      rw [List.map_cons, joinSep_cons _ _ _ (by simp),
        show joinedSectionsSpec (f :: g :: gs)
          = sectionFor f ++ "\n\n---\n\n" ++ joinedSectionsSpec (g :: gs) from rfl,
        ← ih, List.map_cons]

theorem joinSep_map_jsonItems : ∀ pairs : List (String × String), pairs ≠ [] →
    "[\n  " ++ joinSep ",\n  " (pairs.map fun p => jsonNameContent "  " p.1 p.2) ++ "\n]"
      = "[\n" ++ jsonItemsSpec pairs ++ "\n]" := by
  have aux : ∀ pairs : List (String × String), pairs ≠ [] →
      "  " ++ joinSep ",\n  " (pairs.map fun p => jsonNameContent "  " p.1 p.2)
        = jsonItemsSpec pairs := by
    intro pairs
    induction pairs with
    | nil => intro h; exact absurd rfl h
    | cons p ps ih =>
      intro _
      cases ps with
      | nil => rfl
      | cons q qs =>
        rw [List.map_cons, joinSep_cons _ _ _ (by simp),
          show jsonItemsSpec (p :: q :: qs)
            = "  " ++ jsonNameContent "  " p.1 p.2 ++ ",\n" ++ jsonItemsSpec (q :: qs)
            from rfl,
          ← ih (by simp), List.map_cons]
        rw [show (",\n  " : String) = ",\n" ++ "  " from rfl]
        simp only [String.append_assoc]
  intro pairs h
  have h2 := aux pairs h
  rw [show ("[\n  " : String) = "[\n" ++ "  " from rfl]
  have h3 : ("  " : String) ++
      (joinSep ",\n  " (List.map (fun p => jsonNameContent "  " p.1 p.2) pairs) ++ "\n]")
      = jsonItemsSpec pairs ++ "\n]" := by
    rw [← String.append_assoc, h2]
  calc "[\n" ++ "  " ++
        (joinSep ",\n  " (List.map (fun p => jsonNameContent "  " p.1 p.2) pairs) ++ "\n]")
      = "[\n" ++ ("  " ++
          (joinSep ",\n  " (List.map (fun p => jsonNameContent "  " p.1 p.2) pairs) ++ "\n]")) :=
        String.append_assoc ..
    _ = "[\n" ++ (jsonItemsSpec pairs ++ "\n]") := by rw [h3]
    _ = "[\n" ++ jsonItemsSpec pairs ++ "\n]" := (String.append_assoc ..).symm

theorem collectNewFiles_error (genId : String → String) :
    ∀ dropped : List DroppedFile,
    (∃ f ∈ dropped, ∃ e, handleFile genId f = .error e) →
    ∃ e, collectNewFiles genId dropped = .error e := by
  intro dropped
  induction dropped with
  | nil => rintro ⟨f, hf, _⟩; simp at hf
  | cons g gs ih =>
    rintro ⟨f, hf, e, he⟩
    rcases List.mem_cons.mp hf with hf | hf
    · subst hf
      exact ⟨e, by unfold collectNewFiles; rw [he]⟩
    · cases hg : handleFile genId g with
      | error e2 => exact ⟨e2, by unfold collectNewFiles; rw [hg]⟩
      | ok us =>
        obtain ⟨e3, he3⟩ := ih ⟨f, hf, e, he⟩
        exact ⟨e3, by unfold collectNewFiles; rw [hg, he3]⟩

/-- For a non-blank CSV the generated table is the header row, a newline, the
separator row, a newline, and the newline-joined data rows. -/
theorem csvToMarkdownTable_eq_rows (csv : String) (h : jsTrim csv ≠ "") :
    csvToMarkdownTable csv =
      headerRowOf csv ++ "\n" ++ separatorRowOf csv ++ "\n" ++
        joinSep "\n" (tableRowsOf csv) := by
  unfold csvToMarkdownTable
  rw [if_neg h, if_neg (splitLines_ne_nil _)]
  unfold headerRowOf separatorRowOf tableRowsOf
  rw [show (" |\n| " : String) = " |" ++ "\n" ++ "| " from rfl,
    show (" |\n" : String) = " |" ++ "\n" from rfl]
  simp only [String.append_assoc]

/-- C1 (amended): for a CSV whose trimmed content is non-empty the output is
the header row (first line's fields joined by `' | '`, enclosed in pipes), the
separator row (one `---` per header field) and one data row per non-blank
subsequent line in order, joined by single newlines - except that a newline
always follows the separator row, so with no data rows the output carries a
trailing newline; for blank input the output is the empty string. -/
theorem csvToMarkdownTable_structure (csv : String) :
    (jsTrim csv = "" → csvToMarkdownTable csv = "") ∧
    (jsTrim csv ≠ "" →
      csvToMarkdownTable csv =
        headerRowOf csv ++ "\n" ++ separatorRowOf csv ++ "\n" ++
          joinSep "\n" (tableRowsOf csv)) ∧
    (jsTrim csv ≠ "" → tableRowsOf csv ≠ [] → csvToMarkdownTable csv = mdTableClaim csv) := by
  refine ⟨?_, csvToMarkdownTable_eq_rows csv, ?_⟩
  · intro h
    unfold csvToMarkdownTable
    rw [if_pos h]
  · intro h hrows
    rw [csvToMarkdownTable_eq_rows csv h]
    unfold mdTableClaim
    rw [if_neg h]
    cases hr : tableRowsOf csv with
    | nil => exact absurd hr hrows
    | cons r rs =>
      rw [show ([headerRowOf csv, separatorRowOf csv] ++ r :: rs
          = headerRowOf csv :: separatorRowOf csv :: r :: rs) from rfl]
      rw [joinSep_cons "\n" (headerRowOf csv) _ (by simp),
        joinSep_cons "\n" (separatorRowOf csv) _ (by simp)]
      simp only [String.append_assoc]

/-- C1 witness. -/
theorem csvToMarkdownTable_structure_witness :
    jsTrim "h\nx" ≠ "" ∧ tableRowsOf "h\nx" ≠ [] ∧
      csvToMarkdownTable "h\nx" = mdTableClaim "h\nx" :=
  ⟨by decide, by decide,
    (csvToMarkdownTable_structure "h\nx").2.2 (by decide) (by decide)⟩

/-- C1 counterexample: a CSV with a header line and no data lines; the code
emits a trailing newline after the separator row, so the output is not exactly
the newline-joined rows the claim describes. -/
theorem csvToMarkdownTable_trailing_newline_cx :
    csvToMarkdownTable "a" = "| a |\n| --- |\n" ∧
    mdTableClaim "a" = "| a |\n| --- |" ∧
    csvToMarkdownTable "a" ≠ mdTableClaim "a" :=
  ⟨by decide, by decide, by decide⟩

/-- C2: the row tokenizer implements RFC4180-style quoting: a quoted field is a
single field even when it contains commas (with `""` unescaped to `"`), both
before a comma and at the end of the row; an unquoted field extends to the next
comma or the end of the row; and every emitted field value is
whitespace-trimmed. -/
theorem parseCsvRow_rfc4180 :
    (∀ t rest : List Char,
      parseCsvRowL ('"' :: (rfcEscape t ++ '"' :: ',' :: rest)) =
        jsTrim (String.mk t) :: parseCsvRowL rest) ∧
    (∀ t : List Char,
      parseCsvRowL ('"' :: (rfcEscape t ++ ['"'])) = [jsTrim (String.mk t)]) ∧
    (∀ u rest : List Char, ',' ∉ u → u.head? ≠ some '"' →
      parseCsvRowL (u ++ ',' :: rest) = jsTrim (String.mk u) :: parseCsvRowL rest) ∧
    (∀ u : List Char, ',' ∉ u → u.head? ≠ some '"' →
      parseCsvRowL u = [jsTrim (String.mk u)]) ∧
    (∀ row : List Char, ∀ v ∈ parseCsvRowL row, jsTrim v = v) :=
  ⟨parseCsvRowL_quoted_comma, parseCsvRowL_quoted_end, parseCsvRowL_unquoted_comma,
    parseCsvRowL_unquoted_end, parseCsvRowL_trimmed⟩

/-- C2 witness. -/
theorem parseCsvRow_rfc4180_witness :
    (',' ∉ ("x y" : String).data) ∧ (("x y" : String).data.head? ≠ some '"') ∧
    parseCsvRowL (("x y" : String).data ++ ',' :: ("z" : String).data) =
      jsTrim (String.mk ("x y" : String).data) :: parseCsvRowL ("z" : String).data :=
  ⟨by decide, by decide,
    parseCsvRow_rfc4180.2.2.1 ("x y" : String).data ("z" : String).data
      (by decide) (by decide)⟩

/-- C3: with combine mode on, the combined Markdown document is the per-file
sections in list order (heading, blank line, content), consecutive sections
separated by a horizontal rule surrounded by blank lines; with combine mode off
or an empty list it is the empty string. -/
theorem combinedMarkdown_sections (files : List UploadedFile) (isJoining : Bool) :
    combinedMarkdown true files = joinedSectionsSpec files ∧
    combinedMarkdown false files = "" ∧
    combinedMarkdown isJoining [] = "" := by
  refine ⟨?_, rfl, by cases isJoining <;> rfl⟩
  cases files with
  | nil => rfl
  | cons f fs =>
    show combinedMarkdown true (f :: fs) = _
    unfold combinedMarkdown
    rw [if_neg (by simp)]
    exact joinSep_map_sections (f :: fs)

/-- C4 (amended): the synthesized heading is `# ` followed by the name with a
trailing `.md`/`.markdown`/`.csv` extension removed and with exactly the
characters backslash, backtick, `*`, `_`, braces, brackets, parentheses, `#`,
`+`, comma, `-`, `.`, `!` escaped by a preceding backslash - the comma included,
because `+-.` inside the character class is a range covering `','`. -/
theorem headingFor_escape_set (name : String) (c : Char) :
    headingFor name = "# " ++ String.join ((stripExt name).data.map fun d =>
      if d ∈ amendedSpecialChars then "\x5c" ++ String.singleton d
      else String.singleton d) ∧
    (mdSpecialChar c = true ↔ c ∈ amendedSpecialChars) := by
  refine ⟨?_, mdSpecialChar_iff c⟩
  unfold headingFor sanitizeFilenameForHeader
  congr 2
  apply List.map_congr_left
  intro d _
  by_cases h : mdSpecialChar d
  · rw [if_pos h, if_pos ((mdSpecialChar_iff d).mp h)]
  · rw [if_neg h, if_neg fun hm => h ((mdSpecialChar_iff d).mpr hm)]

/-- C4 counterexample: the name `a,b.md` contains a comma, which the code
escapes although it is not in the claim's list of escaped characters. -/
theorem headingFor_comma_cx :
    headingFor "a,b.md" = "# a\x5c,b" ∧
    claimHeading "a,b.md" = "# a,b" ∧
    headingFor "a,b.md" ≠ claimHeading "a,b.md" :=
  ⟨by decide, by decide, by decide⟩

/-- C5: a supported non-ZIP file over 5 MB is rejected with an error naming the
file and the 5MB limit; a ZIP over 25 MB is rejected with an error naming the
file and the 25MB limit; a rejected file contributes no records to the file
list (the whole batch is dropped and an error is set). -/
theorem handleFile_size_limits (genId : String → String) (f : DroppedFile)
    (files : List UploadedFile) (dropped : List DroppedFile) :
    (isZipName f.name = false → isSupportedName f.name = true →
      f.size > MAX_FILE_SIZE_BYTES →
      handleFile genId f = .error ("\"" ++ f.name ++ "\" is larger than 5MB.")) ∧
    (isZipName f.name = true → f.size > MAX_ZIP_FILE_SIZE_BYTES →
      handleFile genId f = .error ("ZIP \"" ++ f.name ++ "\" is larger than 25MB.")) ∧
    (f ∈ dropped → (∃ e, handleFile genId f = .error e) →
      (processFiles genId files dropped).1 = files) := by
  refine ⟨?_, ?_, ?_⟩
  · intro hz hs hsize
    simp [handleFile, hz, hs, hsize]
  · intro hz hsize
    simp [handleFile, hz, hsize]
  · intro hmem herr
    obtain ⟨e2, he2⟩ := collectNewFiles_error genId dropped ⟨f, hmem, herr⟩
    unfold processFiles
    by_cases hge : files.length ≥ MAX_FILES
    · rw [if_pos hge]
    · rw [if_neg hge, he2]

/-- C5 witness. -/
theorem handleFile_size_limits_witness :
    isZipName "big.md" = false ∧ isSupportedName "big.md" = true ∧
    (5242881 : Nat) > MAX_FILE_SIZE_BYTES ∧
    handleFile (fun _ => "id") ⟨"big.md", 5242881, true, "", none⟩ =
      .error ("\"" ++ "big.md" ++ "\" is larger than 5MB.") :=
  ⟨by decide, by decide, by decide,
    (handleFile_size_limits (fun _ => "id") ⟨"big.md", 5242881, true, "", none⟩ [] []).1
      (by decide) (by decide) (by decide)⟩

/-- C6: an accepted ZIP contributes exactly its non-directory members with a
supported extension, converted in member order, and every other member is
skipped; a directly uploaded file of unsupported type yields no records and no
error. -/
theorem handleFile_zip_filtering (genId : String → String) (f : DroppedFile)
    (entries : List ZipEntry) :
    (isZipName f.name = true → ¬f.size > MAX_ZIP_FILE_SIZE_BYTES →
      f.zipEntries = some entries →
      handleFile genId f = .ok ((entries.filter fun e => !e.dir && isSupportedName e.name).map
          fun e => processSingleFile genId e.name e.content) ∧
      (∀ u : UploadedFile,
        u ∈ ((entries.filter fun e => !e.dir && isSupportedName e.name).map
            fun e => processSingleFile genId e.name e.content) ↔
          ∃ e ∈ entries, e.dir = false ∧ isSupportedName e.name = true ∧
            u = processSingleFile genId e.name e.content)) ∧
    (isZipName f.name = false → isSupportedName f.name = false →
      handleFile genId f = .ok []) := by
  refine ⟨?_, ?_⟩
  · intro hz hsize hent
    refine ⟨by simp [handleFile, hz, hsize, hent], ?_⟩
    intro u
    simp only [List.mem_map, List.mem_filter, Bool.and_eq_true, Bool.not_eq_true']
    constructor
    · rintro ⟨e, ⟨he, hd, hs⟩, hu⟩
      exact ⟨e, he, hd, hs, hu.symm⟩
    · rintro ⟨e, he, hd, hs, hu⟩
      exact ⟨e, ⟨he, hd, hs⟩, hu.symm⟩
  · intro hz hs
    simp [handleFile, hz, hs]

/-- C6 witness. -/
theorem handleFile_zip_filtering_witness :
    isZipName "a.zip" = true ∧ ¬(10 : Nat) > MAX_ZIP_FILE_SIZE_BYTES ∧
    handleFile (fun _ => "id")
        ⟨"a.zip", 10, true, "",
          some [⟨"doc.md", false, "hi"⟩, ⟨"dir/", true, ""⟩, ⟨"img.png", false, ""⟩]⟩ =
      .ok [processSingleFile (fun _ => "id") "doc.md" "hi"] ∧
    isZipName "img.png" = false ∧ isSupportedName "img.png" = false ∧
    handleFile (fun _ => "id") ⟨"img.png", 10, true, "", none⟩ = .ok [] := by
  refine ⟨by decide, by decide, ?_, by decide, by decide, ?_⟩
  · have h := (handleFile_zip_filtering (fun _ => "id")
      ⟨"a.zip", 10, true, "",
        some [⟨"doc.md", false, "hi"⟩, ⟨"dir/", true, ""⟩, ⟨"img.png", false, ""⟩]⟩
      [⟨"doc.md", false, "hi"⟩, ⟨"dir/", true, ""⟩, ⟨"img.png", false, ""⟩]).1
      (by decide) (by decide) rfl
    exact h.1.trans rfl
  · exact (handleFile_zip_filtering (fun _ => "id")
      ⟨"img.png", 10, true, "", none⟩ []).2 (by decide) (by decide)

/-- C7: with JSON output and combine mode on, the artifact is the JSON
serialization of the `{name, content}` pairs in list order; with combine mode
off, one `{name, content}` object is serialized per file into a ZIP entry named
after the file with its extension stripped; the record ids never influence the
output. -/
theorem downloadJson_pairs (files files2 : List UploadedFile) :
    (files ≠ [] →
      downloadJsonCombined files = jsonArraySpec (files.map fun f => (f.name, f.content))) ∧
    (downloadJsonSeparate files
      = files.map fun f => (stripExt f.name ++ ".json", jsonNameContent "" f.name f.content)) ∧
    (files.map (fun f => (f.name, f.content)) = files2.map (fun f => (f.name, f.content)) →
      downloadJsonCombined files = downloadJsonCombined files2 ∧
      downloadJsonSeparate files = downloadJsonSeparate files2) := by
  refine ⟨?_, rfl, ?_⟩
  · intro h
    have hne : files.map (fun f => (f.name, f.content)) ≠ [] := by simpa using h
    unfold downloadJsonCombined jsonStringifyPairs
    rw [if_neg hne]
    cases hm : files.map (fun f => (f.name, f.content)) with
    | nil => exact absurd hm hne
    | cons p ps =>
      rw [show jsonArraySpec (p :: ps) = "[\n" ++ jsonItemsSpec (p :: ps) ++ "\n]" from rfl]
      exact joinSep_map_jsonItems (p :: ps) (by simp)
  · intro hmap
    constructor
    · unfold downloadJsonCombined
      rw [hmap]
    · unfold downloadJsonSeparate
      have hrw : ∀ fs : List UploadedFile,
          fs.map (fun f => (stripExt f.name ++ ".json", jsonNameContent "" f.name f.content))
            = (fs.map fun f => (f.name, f.content)).map
                fun p => (stripExt p.1 ++ ".json", jsonNameContent "" p.1 p.2) := by
        intro fs
        rw [List.map_map]
        rfl
      rw [hrw files, hrw files2, hmap]

/-- C7 witness. -/
theorem downloadJson_pairs_witness :
    ([⟨"1", "a.md", "A"⟩] : List UploadedFile) ≠ [] ∧
    downloadJsonCombined [⟨"1", "a.md", "A"⟩] = jsonArraySpec [("a.md", "A")] ∧
    (([⟨"1", "a.md", "A"⟩] : List UploadedFile).map (fun f => (f.name, f.content))
      = ([⟨"2", "a.md", "A"⟩] : List UploadedFile).map fun f => (f.name, f.content)) ∧
    downloadJsonCombined [⟨"1", "a.md", "A"⟩] = downloadJsonCombined [⟨"2", "a.md", "A"⟩] :=
  ⟨by decide,
    (downloadJson_pairs [⟨"1", "a.md", "A"⟩] [⟨"2", "a.md", "A"⟩]).1 (by decide),
    by decide,
    ((downloadJson_pairs [⟨"1", "a.md", "A"⟩] [⟨"2", "a.md", "A"⟩]).2.2 (by decide)).1⟩

/-- C8: the file list never exceeds 100 entries: `processFiles` preserves the
cap, refuses to start at 100 files, truncates an overflowing batch to the
remaining space while reporting an error, and `removeFile` and clearing only
shrink the list. -/
theorem filesList_cap :
    (∀ (genId : String → String) (files : List UploadedFile) (dropped : List DroppedFile),
      files.length ≤ MAX_FILES → (processFiles genId files dropped).1.length ≤ MAX_FILES) ∧
    (∀ (genId : String → String) (files : List UploadedFile) (dropped : List DroppedFile),
      files.length = MAX_FILES →
      processFiles genId files dropped =
        (files, some "You have reached the maximum of 100 files.")) ∧
    (∀ (genId : String → String) (files : List UploadedFile) (dropped : List DroppedFile)
      (nf : List UploadedFile),
      files.length < MAX_FILES → collectNewFiles genId dropped = .ok nf →
      files.length + nf.length > MAX_FILES →
      processFiles genId files dropped =
        (files ++ nf.take (MAX_FILES - files.length),
          some "Adding these files would exceed the limit of 100. Only a portion were added.")) ∧
    (∀ (files : List UploadedFile) (fid : String),
      (removeFile files fid).length ≤ files.length) ∧
    clearFiles.length ≤ MAX_FILES := by
  refine ⟨?_, ?_, ?_, ?_, by decide⟩
  · intro genId files dropped hle
    unfold processFiles
    by_cases hge : files.length ≥ MAX_FILES
    · rw [if_pos hge]
      exact hle
    · rw [if_neg hge]
      cases hc : collectNewFiles genId dropped with
      | error e => exact hle
      | ok nf =>
        dsimp only
        by_cases hov : files.length + nf.length > MAX_FILES
        · rw [if_pos hov]
          simp only [List.length_append, List.length_take]
          omega
        · rw [if_neg hov]
          simp only [List.length_append]
          omega
  · intro genId files dropped heq
    unfold processFiles
    rw [if_pos (by omega)]
  · intro genId files dropped nf hlt hc hov
    unfold processFiles
    rw [if_neg (by omega), hc]
    dsimp only
    rw [if_pos hov]
  · intro files fid
    exact List.length_filter_le _ _

/-- C8 witness. -/
theorem filesList_cap_witness :
    (List.replicate 100 (⟨"i", "n", "c"⟩ : UploadedFile)).length = MAX_FILES ∧
    processFiles (fun _ => "id") (List.replicate 100 ⟨"i", "n", "c"⟩) [] =
      (List.replicate 100 ⟨"i", "n", "c"⟩,
        some "You have reached the maximum of 100 files.") ∧
    ([] : List UploadedFile).length ≤ MAX_FILES ∧
    (processFiles (fun _ => "id") [] []).1.length ≤ MAX_FILES :=
  ⟨by decide, filesList_cap.2.1 (fun _ => "id") _ [] (by decide), by decide,
    filesList_cap.1 (fun _ => "id") [] [] (by decide)⟩

/-- C10: a batch is atomic with respect to failures: if any dropped file fails
in `handleFile`, the file list is left exactly as it was and an error message
is set. -/
theorem processFiles_atomic (genId : String → String) (files : List UploadedFile)
    (dropped : List DroppedFile)
    (h : ∃ f ∈ dropped, ∃ e, handleFile genId f = .error e) :
    (processFiles genId files dropped).1 = files ∧
      ((processFiles genId files dropped).2).isSome = true := by
  obtain ⟨e, he⟩ := collectNewFiles_error genId dropped h
  unfold processFiles
  by_cases hge : files.length ≥ MAX_FILES
  · rw [if_pos hge]
    exact ⟨rfl, rfl⟩
  · rw [if_neg hge, he]
    exact ⟨rfl, rfl⟩

/-- C10 witness. -/
theorem processFiles_atomic_witness :
    (∃ f ∈ [(⟨"bad.zip", 1, true, "", none⟩ : DroppedFile)],
      ∃ e, handleFile (fun _ => "id") f = .error e) ∧
    (processFiles (fun _ => "id") [⟨"1", "ok.md", "K"⟩]
        [⟨"bad.zip", 1, true, "", none⟩]).1 = [⟨"1", "ok.md", "K"⟩] :=
  ⟨⟨⟨"bad.zip", 1, true, "", none⟩, by decide,
      "Failed to process ZIP file \"bad.zip\". It may be corrupt.", rfl⟩,
    (processFiles_atomic (fun _ => "id") [⟨"1", "ok.md", "K"⟩]
      [⟨"bad.zip", 1, true, "", none⟩]
      ⟨⟨"bad.zip", 1, true, "", none⟩, by decide,
        "Failed to process ZIP file \"bad.zip\". It may be corrupt.", rfl⟩).1⟩

/-- C9: every generated data row has exactly as many cells as the header: short
rows are right-padded with empty cells, long rows are truncated, pipes inside
data cells are escaped as backslash-pipe, and header cells are emitted without
that escaping. -/
theorem csvTable_row_shape (csv : String) (h : jsTrim csv ≠ "") :
    (∀ line ∈ csvDataLinesOf (jsTrim csv).data,
      (adjustCells (csvHeaderOf (jsTrim csv).data).length (parseCsvRowL line)).length
          = (csvHeaderOf (jsTrim csv).data).length ∧
      adjustCells (csvHeaderOf (jsTrim csv).data).length (parseCsvRowL line)
          = (parseCsvRowL line).take (csvHeaderOf (jsTrim csv).data).length ++
            List.replicate
              ((csvHeaderOf (jsTrim csv).data).length - (parseCsvRowL line).length) "") ∧
    csvToMarkdownTable csv =
      "| " ++ joinSep " | " (csvHeaderOf (jsTrim csv).data) ++ " |" ++ "\n" ++
        separatorRowOf csv ++ "\n" ++
        joinSep "\n" ((csvDataLinesOf (jsTrim csv).data).map fun line =>
          "| " ++ joinSep " | "
            ((adjustCells (csvHeaderOf (jsTrim csv).data).length (parseCsvRowL line)).map
              escapePipes) ++ " |") ∧
    (∀ cell : String, (escapePipes cell).data
        = cell.data.flatMap fun c => if c = '|' then ['\x5c', '|'] else [c]) := by
  refine ⟨fun line _ => ⟨adjustCells_length .., adjustCells_eq ..⟩, ?_, escapePipes_data⟩
  rw [csvToMarkdownTable_eq_rows csv h]
  rfl

/-- C9 witness. -/
theorem csvTable_row_shape_witness :
    jsTrim "h1,h2\na,b,c\nd" ≠ "" ∧
    csvToMarkdownTable "h1,h2\na,b,c\nd" =
      "| " ++ joinSep " | " (csvHeaderOf (jsTrim "h1,h2\na,b,c\nd").data) ++ " |" ++ "\n" ++
        separatorRowOf "h1,h2\na,b,c\nd" ++ "\n" ++
        joinSep "\n" ((csvDataLinesOf (jsTrim "h1,h2\na,b,c\nd").data).map fun line =>
          "| " ++ joinSep " | "
            ((adjustCells (csvHeaderOf (jsTrim "h1,h2\na,b,c\nd").data).length
              (parseCsvRowL line)).map escapePipes) ++ " |") :=
  ⟨by decide, ((csvTable_row_shape "h1,h2\na,b,c\nd" (by decide)).2.1 : _)⟩

/-- C3 witness. -/
theorem combinedMarkdown_sections_witness :
    combinedMarkdown true [⟨"1", "a.md", "A"⟩, ⟨"2", "b.md", "B"⟩] =
      joinedSectionsSpec [⟨"1", "a.md", "A"⟩, ⟨"2", "b.md", "B"⟩] ∧
    combinedMarkdown false [⟨"1", "a.md", "A"⟩] = "" :=
  ⟨(combinedMarkdown_sections [⟨"1", "a.md", "A"⟩, ⟨"2", "b.md", "B"⟩] true).1,
    (combinedMarkdown_sections [⟨"1", "a.md", "A"⟩] false).2.1⟩

/-- C4 witness. -/
theorem headingFor_escape_set_witness :
    headingFor "x*y.md" = "# " ++ String.join (("x*y" : String).data.map fun d =>
      if d ∈ amendedSpecialChars then "\x5c" ++ String.singleton d
      else String.singleton d) ∧
    (mdSpecialChar ',' = true ↔ ',' ∈ amendedSpecialChars) :=
  ⟨by
    have h := (headingFor_escape_set "x*y.md" ',').1
    rw [h]
    rfl,
    (headingFor_escape_set "x*y.md" ',').2⟩
